import Mathlib

/-!
Verification of the date-filling + validation pipeline of the financial
data-extraction CLI (CBR exchange rates, MOEX LQDT candles).

Shallow embedding conventions:
* Calendar dates are embedded as `Int` day ordinals; Python's
  `d2 - d1` (in days) becomes integer subtraction and
  `d + timedelta(days=n)` becomes `d + n`.
* Python `float` values are embedded as `PyFloat`: a finite rational,
  `nan`, `inf` (positive infinity) or `negInf` (negative infinity), with
  the IEEE-754 comparison semantics the source relies on
  (every ordered comparison involving NaN is false).
* Python `None` becomes `Option.none`.
* The provider dictionaries (`api_records` in `cbr_client._parse_xml_response`,
  `records_by_date` in `moex_client._parse_payload`) are embedded as lookup
  functions `Int → Option _`; insertion is pointwise function update
  (last write wins, as for a Python dict).
* Error messages carried by exceptions and by the `(is_valid, error_message)`
  results are embedded as an inductive `Reason` with one constructor per
  message template in `src/utils/validators.py` / `moex_client.py`, carrying
  the data interpolated into the message.
-/

/-- Embedding of a Python `float` value: finite rationals plus the three
IEEE-754 special values the validators care about. -/
inductive PyFloat where
  | finite (q : ℚ)
  | nan
  | inf
  | negInf
  deriving DecidableEq, Repr

namespace PyFloat

/-- `x > 0` with Python/IEEE semantics: comparisons with NaN are false,
`inf > 0` is true, `-inf > 0` is false. -/
def gtZero : PyFloat → Bool
  | .finite q => decide (0 < q)
  | .nan => false
  | .inf => true
  | .negInf => false

/-- `x >= 0` with Python/IEEE semantics (`nan >= 0` is false). -/
def geZero : PyFloat → Bool
  | .finite q => decide (0 ≤ q)
  | .nan => false
  | .inf => true
  | .negInf => false

/-- `x < 0` with Python/IEEE semantics (`nan < 0` is false). -/
def ltZero : PyFloat → Bool
  | .finite q => decide (q < 0)
  | .nan => false
  | .inf => false
  | .negInf => true

/-- `math.isnan`. -/
def isnan : PyFloat → Bool
  | .nan => true
  | _ => false

/-- Finiteness of a float (used to state the spec's "finite number" wording;
the source performs no such check). -/
def isFinite : PyFloat → Bool
  | .finite _ => true
  | _ => false

end PyFloat

/-- `src/models/exchange_rate.py::ExchangeRateRecord`. -/
structure ExchangeRateRecord where
  date : Int
  exchange_rate_value : Option PyFloat
  currency_pair : String
  deriving DecidableEq, Repr

/-- `src/models/candles.py::CandleRecord`. -/
structure CandleRecord where
  date : Int
  «open» : Option PyFloat
  high : Option PyFloat
  low : Option PyFloat
  close : Option PyFloat
  volume : Option PyFloat
  instrument : String
  board : String
  deriving DecidableEq, Repr

/-- One distinguishing constructor per error-message template produced by
`validate_records` / `validate_candles` (plus the MOEX client's negative /
unparseable value errors are kept as plain strings on the `Except` side). -/
inductive Reason where
  /-- "Expected {expected} records, got {got}" (rate: expected is the
  hard-coded 7; candles: expected is the derived day span). -/
  | expectedCount (expected got : Int)
  /-- "Date {d} is outside the expected period [{s}, {e}]" -/
  | dateOutsidePeriod (d s e : Int)
  /-- "Duplicate date found: {d}" -/
  | duplicateDate (d : Int)
  /-- "Invalid exchange rate value for date {d}: {v}" -/
  | invalidRateValue (d : Int) (v : Option PyFloat)
  /-- "Invalid currency pair: {p}, expected RUB/USD" -/
  | invalidCurrencyPair (p : String)
  /-- "Missing dates in records: {missing}" -/
  | missingDates
  /-- "Start date is after end date" (candles only) -/
  | startAfterEnd
  /-- "Invalid instrument: {i}" -/
  | invalidInstrument (i : String)
  /-- "Invalid board: {b}" -/
  | invalidBoard (b : String)
  /-- "Invalid {field} value for date {d}: {v}" -/
  | invalidCandleValue (field : String) (d : Int) (v : PyFloat)
  deriving DecidableEq, Repr

/-- `validators.validate_date`: the date lies within the inclusive period. -/
def validate_date (date_value period_start period_end : Int) : Bool :=
  decide (period_start ≤ date_value) && decide (date_value ≤ period_end)

/-- `validators.validate_rate`: `None` is valid; otherwise `float(rate) > 0`.
(The `isinstance` / conversion guards of the source reject non-float inputs,
which are outside this embedding's `Option PyFloat` domain.) -/
def validate_rate : Option PyFloat → Bool
  | none => true
  | some rate => rate.gtZero

/-- The body of the `for record in records` loop of
`validators.validate_records`, as the first failing check of one record
given the dates seen so far: date-within-period, then duplicate, then rate
value, then currency pair. -/
def recordFirstReason (period_start period_end : Int) (dates_seen : List Int)
    (r : ExchangeRateRecord) : Option Reason :=
  if ¬ validate_date r.date period_start period_end then
    some (.dateOutsidePeriod r.date period_start period_end)
  else if r.date ∈ dates_seen then
    some (.duplicateDate r.date)
  else if ¬ validate_rate r.exchange_rate_value then
    some (.invalidRateValue r.date r.exchange_rate_value)
  else if r.currency_pair ≠ "RUB/USD" then
    some (.invalidCurrencyPair r.currency_pair)
  else none

/-- The `for record in records` loop of `validators.validate_records`:
records are processed in list order, the first failing check aborts, and a
record that passes adds its date to `dates_seen`. -/
def recordsLoop (period_start period_end : Int) :
    List ExchangeRateRecord → List Int → Option Reason
  | [], _ => none
  | r :: rest, dates_seen =>
    match recordFirstReason period_start period_end dates_seen r with
    | some reason => some reason
    | none => recordsLoop period_start period_end rest (r.date :: dates_seen)

/-- Python set equality of two collections of dates (`dates_seen != expected_dates`). -/
def datesSetEq (a b : List Int) : Bool :=
  decide ((∀ x ∈ a, x ∈ b) ∧ ∀ x ∈ b, x ∈ a)

/-- The calendar sequence `[start + i for i in range(n)]`
(`{period_start + timedelta(days=i) for i in range(n)}` up to set/list view). -/
def calSeq (start : Int) (n : Nat) : List Int :=
  (List.range n).map (fun (i : Nat) => start + (i : Int))

/-- `validators.validate_records`: hard-coded count of 7, then the per-record
loop, then set equality of the seen dates with the 7 expected dates. -/
def validate_records (records : List ExchangeRateRecord)
    (period_start period_end : Int) : Bool × Option Reason :=
  if records.length ≠ 7 then
    (false, some (.expectedCount 7 (records.length : Int)))
  else
    match recordsLoop period_start period_end records [] with
    | some reason => (false, some reason)
    | none =>
      if datesSetEq (records.map (·.date)) (calSeq period_start 7) then
        (true, none)
      else (false, some .missingDates)

/-- `validators._is_non_negative_number`: convertible to float
(always true on the `PyFloat` domain), not NaN, and `>= 0`. -/
def is_non_negative_number (value : PyFloat) : Bool :=
  if value.isnan then false else value.geZero

/-- The `("open", "high", "low", "close", "volume")` field tuple of
`validate_candles`, paired with each field's value via `getattr`. -/
def candleFields (r : CandleRecord) : List (String × Option PyFloat) :=
  [("open", r.«open»), ("high", r.high), ("low", r.low),
   ("close", r.close), ("volume", r.volume)]

/-- The inner `for field_name in (...)` loop of `validate_candles`:
`None` is skipped, a present value failing `_is_non_negative_number`
aborts with that field's reason. -/
def candleFieldReason (d : Int) : List (String × Option PyFloat) → Option Reason
  | [] => none
  | (field_name, value) :: rest =>
    match value with
    | none => candleFieldReason d rest
    | some v =>
      if ¬ is_non_negative_number v then some (.invalidCandleValue field_name d v)
      else candleFieldReason d rest

/-- The body of the `for record in records` loop of `validate_candles`:
date-within-period, duplicate, instrument, board, then the five value fields. -/
def candleFirstReason (start_date end_date : Int) (dates_seen : List Int)
    (r : CandleRecord) : Option Reason :=
  if ¬ validate_date r.date start_date end_date then
    some (.dateOutsidePeriod r.date start_date end_date)
  else if r.date ∈ dates_seen then
    some (.duplicateDate r.date)
  else if r.instrument ≠ "LQDT" then
    some (.invalidInstrument r.instrument)
  else if r.board ≠ "TQTF" then
    some (.invalidBoard r.board)
  else candleFieldReason r.date (candleFields r)

/-- The record loop of `validate_candles`. -/
def candlesLoop (start_date end_date : Int) :
    List CandleRecord → List Int → Option Reason
  | [], _ => none
  | r :: rest, dates_seen =>
    match candleFirstReason start_date end_date dates_seen r with
    | some reason => some reason
    | none => candlesLoop start_date end_date rest (r.date :: dates_seen)

/-- `validators.validate_candles`: start/end sanity, count derived from the
span (`(end_date - start_date).days + 1`), per-record loop, date-set equality. -/
def validate_candles (records : List CandleRecord)
    (start_date end_date : Int) : Bool × Option Reason :=
  if start_date > end_date then (false, some .startAfterEnd)
  else
    let expected_days : Int := (end_date - start_date) + 1
    if (records.length : Int) ≠ expected_days then
      (false, some (.expectedCount expected_days (records.length : Int)))
    else
      match candlesLoop start_date end_date records [] with
      | some reason => (false, some reason)
      | none =>
        if datesSetEq (records.map (·.date)) (calSeq start_date expected_days.toNat) then
          (true, none)
        else (false, some .missingDates)

/-! ### CBR client: the densifying tail of `_parse_xml_response`

The XML parsing of `cbr_client._parse_xml_response` builds a dict
`api_records : date → rate`; the densifying `while current_date <= end_date`
loop then emits one `ExchangeRateRecord` per day, with
`api_records.get(current_date)` (i.e., `None` when absent) as the value.
The dict is embedded as a lookup function. -/

/-- The `while current_date <= end_date` loop of
`cbr_client._parse_xml_response`, with the remaining number of days as fuel. -/
def densifyRatesFrom (api_records : Int → Option PyFloat) (current_date : Int) :
    Nat → List ExchangeRateRecord
  | 0 => []
  | n + 1 =>
    { date := current_date
      exchange_rate_value := api_records current_date
      currency_pair := "RUB/USD" } :: densifyRatesFrom api_records (current_date + 1) n

/-- The densifying step of `cbr_client._parse_xml_response`: the loop runs
once per day of `[start_date, end_date]` (zero times when the range is empty). -/
def parse_xml_densify (api_records : Int → Option PyFloat)
    (start_date end_date : Int) : List ExchangeRateRecord :=
  densifyRatesFrom api_records start_date (end_date - start_date + 1).toNat

/-! ### MOEX client: `_parse_payload`

A payload row is embedded after column-index resolution: the source first
checks that the required columns exist and builds `col_index`; a `MoexRow`
holds the row's cells at those resolved positions. `begin_` is the parsed
candle date (`none` embeds an unparseable `begin` cell, which raises);
`boardid` is `none` when the optional `boardid` column is absent. -/

/-- A JSON cell of a candle row: null, a number, or a value `float()` cannot
parse (raising `TypeError`/`ValueError`). -/
inductive JsonVal where
  | jnull
  | jnum (x : PyFloat)
  | junparseable
  deriving DecidableEq, Repr

/-- A candle data row of the MOEX payload, cells resolved by column name. -/
structure MoexRow where
  begin_ : Option Int
  boardid : Option String
  «open» : JsonVal
  high : JsonVal
  low : JsonVal
  close : JsonVal
  volume : JsonVal
  deriving DecidableEq, Repr

/-- `moex_client._parse_payload.parse_float`: `None` stays `None`, an
unparseable value raises (`Except.error`), a parsed number `< 0` raises,
anything else is returned. -/
def parse_float : JsonVal → Except String (Option PyFloat)
  | .jnull => .ok none
  | .jnum number =>
    if number.ltZero then .error "negative value in API data"
    else .ok (some number)
  | .junparseable => .error "non-numeric value in API response"

/-- Processing of one row of the `for row in data_rows` loop of
`_parse_payload`: parse the `begin` date (raise when unparseable), skip the
row when the date is outside `[start_date, end_date]`, check the board,
then build the `CandleRecord` through `parse_float` on the five OHLCV cells
in source order. `ok none` embeds `continue`. -/
def parseRow (row : MoexRow) (start_date end_date : Int) :
    Except String (Option (Int × CandleRecord)) :=
  match row.begin_ with
  | none => .error "bad candle date in API response"
  | some day =>
    if day < start_date ∨ day > end_date then .ok none
    else if row.boardid.getD "TQTF" ≠ "TQTF" then .error "unexpected board"
    else
      match parse_float row.«open» with
      | .error msg => .error msg
      | .ok o =>
        match parse_float row.high with
        | .error msg => .error msg
        | .ok h =>
          match parse_float row.low with
          | .error msg => .error msg
          | .ok l =>
            match parse_float row.close with
            | .error msg => .error msg
            | .ok c =>
              match parse_float row.volume with
              | .error msg => .error msg
              | .ok v =>
                .ok (some (day,
                  { date := day, «open» := o, high := h, low := l, close := c,
                    volume := v, instrument := "LQDT", board := "TQTF" }))

/-- The `for row in data_rows` loop of `_parse_payload`, building
`records_by_date` (embedded as a lookup function; a later row with the same
date overwrites, as for a Python dict). -/
def buildRecords (start_date end_date : Int) :
    List MoexRow → (Int → Option CandleRecord) →
    Except String (Int → Option CandleRecord)
  | [], records_by_date => .ok records_by_date
  | row :: rest, records_by_date =>
    match parseRow row start_date end_date with
    | .error msg => .error msg
    | .ok none => buildRecords start_date end_date rest records_by_date
    | .ok (some (day, record)) =>
      buildRecords start_date end_date rest
        (fun d => if d = day then some record else records_by_date d)

/-- The all-null fallback record of `_parse_payload`'s densifying loop. -/
def nullCandle (d : Int) : CandleRecord :=
  { date := d, «open» := none, high := none, low := none, close := none,
    volume := none, instrument := "LQDT", board := "TQTF" }

/-- The `while current_date <= end_date` densifying loop of `_parse_payload`:
`records_by_date.get(current_date, <all-null record>)`, one day at a time. -/
def densifyCandles (records_by_date : Int → Option CandleRecord)
    (current_date : Int) : Nat → List CandleRecord
  | 0 => []
  | n + 1 =>
    (records_by_date current_date).getD (nullCandle current_date)
      :: densifyCandles records_by_date (current_date + 1) n

/-- `moex_client._parse_payload` after column resolution: process the rows,
then densify over `[start_date, end_date]`. -/
def parse_payload (rows : List MoexRow) (start_date end_date : Int) :
    Except String (List CandleRecord) :=
  match buildRecords start_date end_date rows (fun _ => none) with
  | .error msg => .error msg
  | .ok records_by_date =>
    .ok (densifyCandles records_by_date start_date (end_date - start_date + 1).toNat)

/-! ### Orchestrator (`src/cli/main.py`)

The provider call and the sink writer are external collaborators; they are
embedded as already-classified outcomes: a provider failure carries the exit
code `_run_cbr`'s `except` branch / `_classify_moex_error` computes for it, a
sink failure carries the exit code of the corresponding `except` branch. A
`RunOutcome` records the final exit code and whether the sink writer was
invoked at all. -/

def EXIT_SUCCESS : Int := 0
def EXIT_API_ERROR : Int := 1
def EXIT_NETWORK_ERROR : Int := 2
def EXIT_INVALID_DATA : Int := 3
def EXIT_FILE_SYSTEM_ERROR : Int := 4
def EXIT_VALIDATION_ERROR : Int := 5

structure RunOutcome where
  exit : Int
  sinkInvoked : Bool
  deriving DecidableEq, Repr

/-- `main._run_cbr`: fetch (already classified on failure), validate, and
only on `is_valid` invoke the writer. -/
def run_cbr (start_date end_date : Int)
    (fetch : Except Int (List ExchangeRateRecord))
    (write : List ExchangeRateRecord → Except Int String) : RunOutcome :=
  match fetch with
  | .error code => { exit := code, sinkInvoked := false }
  | .ok records =>
    if ¬ (validate_records records start_date end_date).1 then
      { exit := EXIT_VALIDATION_ERROR, sinkInvoked := false }
    else
      match write records with
      | .ok _ => { exit := EXIT_SUCCESS, sinkInvoked := true }
      | .error code => { exit := code, sinkInvoked := true }

/-- `main._run_moex_lqdt`: same shape with `validate_candles` and the XLSX
writer. -/
def run_moex_lqdt (start_date end_date : Int)
    (fetch : Except Int (List CandleRecord))
    (write : List CandleRecord → Except Int String) : RunOutcome :=
  match fetch with
  | .error code => { exit := code, sinkInvoked := false }
  | .ok records =>
    if ¬ (validate_candles records start_date end_date).1 then
      { exit := EXIT_VALIDATION_ERROR, sinkInvoked := false }
    else
      match write records with
      | .ok _ => { exit := EXIT_SUCCESS, sinkInvoked := true }
      | .error code => { exit := code, sinkInvoked := true }

/-! ## Helper lemmas about the calendar sequence -/

theorem calSeq_succ (s : Int) (n : Nat) : calSeq s (n + 1) = s :: calSeq (s + 1) n := by
  unfold calSeq
  rw [List.range_succ_eq_map, List.map_cons, List.map_map]
  congr 1
  · show s + ((0 : Nat) : Int) = s
    norm_num
  · refine List.map_congr_left fun a _ => ?_
    show s + ((Nat.succ a : Nat) : Int) = (s + 1) + (a : Int)
    push_cast
    ring

theorem mem_calSeq {d s : Int} {n : Nat} : d ∈ calSeq s n ↔ s ≤ d ∧ d < s + n := by
  unfold calSeq
  simp only [List.mem_map, List.mem_range]
  constructor
  · rintro ⟨i, hi, rfl⟩
    refine ⟨?_, ?_⟩
    · show s ≤ s + (i : Int)
      omega
    · show s + (i : Int) < s + (n : Int)
      omega
  · rintro ⟨h1, h2⟩
    refine ⟨(d - s).toNat, by omega, ?_⟩
    show s + (((d - s).toNat : Nat) : Int) = d
    omega

theorem calSeq_length (s : Int) (n : Nat) : (calSeq s n).length = n := by
  unfold calSeq
  rw [List.length_map, List.length_range]

theorem calSeq_pairwise (s : Int) (n : Nat) : (calSeq s n).Pairwise (· < ·) := by
  unfold calSeq
  refine List.pairwise_map.mpr ?_
  refine (List.pairwise_lt_range n).imp (fun {a b} h => ?_)
  show s + (a : Int) < s + (b : Int)
  omega

/-! ## Helper lemmas about the CBR densifier -/

theorem densifyRatesFrom_map_date (f : Int → Option PyFloat) (s : Int) (n : Nat) :
    (densifyRatesFrom f s n).map (·.date) = calSeq s n := by
  induction n generalizing s with
  | zero => simp [densifyRatesFrom, calSeq]
  | succ n ih =>
    rw [calSeq_succ]
    simp [densifyRatesFrom, ih]

theorem densifyRatesFrom_length (f : Int → Option PyFloat) (s : Int) (n : Nat) :
    (densifyRatesFrom f s n).length = n := by
  induction n generalizing s with
  | zero => rfl
  | succ n ih => simp [densifyRatesFrom, ih]

theorem densifyRatesFrom_mem_value (f : Int → Option PyFloat) (s d : Int) (n : Nat)
    (h1 : s ≤ d) (h2 : d < s + n) :
    ({ date := d, exchange_rate_value := f d, currency_pair := "RUB/USD" } :
      ExchangeRateRecord) ∈ densifyRatesFrom f s n := by
  induction n generalizing s with
  | zero => omega
  | succ n ih =>
    simp only [densifyRatesFrom]
    rcases eq_or_lt_of_le h1 with rfl | hlt
    · exact List.mem_cons_self _ _
    · exact List.mem_cons_of_mem _ (ih (s + 1) (by omega) (by omega))

theorem densifyRatesFrom_date_bound (f : Int → Option PyFloat) (s : Int) (n : Nat) :
    ∀ r ∈ densifyRatesFrom f s n, s ≤ r.date ∧ r.date < s + n := by
  induction n generalizing s with
  | zero => simp [densifyRatesFrom]
  | succ n ih =>
    intro r hr
    simp only [densifyRatesFrom, List.mem_cons] at hr
    rcases hr with rfl | hr
    · dsimp only
      omega
    · have h := ih (s + 1) r hr
      omega

/-! ## Helper lemmas about the MOEX parser and densifier -/

theorem parse_float_ok_not_neg {v : JsonVal} {x : PyFloat}
    (h : parse_float v = .ok (some x)) : x.ltZero = false := by
  cases v with
  | jnull => exact absurd h (by simp [parse_float])
  | jnum y =>
    simp only [parse_float] at h
    split at h
    · exact absurd h (by simp)
    · simp only [Except.ok.injEq, Option.some.injEq] at h
      subst h
      simpa using ‹¬ y.ltZero = true›
  | junparseable => exact absurd h (by simp [parse_float])

/-- Invariant maintained over `records_by_date`: keys are in range, each
stored record carries its key as date, and its present values are not
negative. -/
def dictOk (s e : Int) (m : Int → Option CandleRecord) : Prop :=
  ∀ d r, m d = some r →
    r.date = d ∧ s ≤ d ∧ d ≤ e ∧
    ∀ ov ∈ [r.«open», r.high, r.low, r.close, r.volume],
      ∀ x, ov = some x → x.ltZero = false

theorem parseRow_ok_some {row : MoexRow} {s e day : Int} {rec : CandleRecord}
    (h : parseRow row s e = .ok (some (day, rec))) :
    rec.date = day ∧ s ≤ day ∧ day ≤ e ∧
    ∀ ov ∈ [rec.«open», rec.high, rec.low, rec.close, rec.volume],
      ∀ x, ov = some x → x.ltZero = false := by
  cases hb : row.begin_ with
  | none => simp [parseRow, hb] at h
  | some d =>
    simp only [parseRow, hb] at h
    by_cases hrange : d < s ∨ d > e
    · rw [if_pos hrange] at h
      exact absurd h (by simp)
    · rw [if_neg hrange] at h
      by_cases hbd : row.boardid.getD "TQTF" ≠ "TQTF"
      · rw [if_pos hbd] at h
        exact absurd h (by simp)
      · rw [if_neg hbd] at h
        cases ho : parse_float row.«open» with
        | error msg => simp [ho] at h
        | ok o =>
          cases hh : parse_float row.high with
          | error msg => simp [ho, hh] at h
          | ok hi =>
            cases hl : parse_float row.low with
            | error msg => simp [ho, hh, hl] at h
            | ok lo =>
              cases hc : parse_float row.close with
              | error msg => simp [ho, hh, hl, hc] at h
              | ok cl =>
                cases hv : parse_float row.volume with
                | error msg => simp [ho, hh, hl, hc, hv] at h
                | ok vo =>
                  simp only [ho, hh, hl, hc, hv, Except.ok.injEq,
                    Option.some.injEq, Prod.mk.injEq] at h
                  obtain ⟨rfl, rfl⟩ := h
                  refine ⟨rfl, by omega, by omega, ?_⟩
                  intro ov hov x hx
                  simp only [List.mem_cons, List.not_mem_nil, or_false] at hov
                  rcases hov with rfl | rfl | rfl | rfl | rfl
                  · exact parse_float_ok_not_neg (hx ▸ ho)
                  · exact parse_float_ok_not_neg (hx ▸ hh)
                  · exact parse_float_ok_not_neg (hx ▸ hl)
                  · exact parse_float_ok_not_neg (hx ▸ hc)
                  · exact parse_float_ok_not_neg (hx ▸ hv)

theorem buildRecords_dictOk {s e : Int} {rows : List MoexRow}
    {m₀ m : Int → Option CandleRecord} (h₀ : dictOk s e m₀)
    (h : buildRecords s e rows m₀ = .ok m) : dictOk s e m := by
  induction rows generalizing m₀ with
  | nil =>
    simp only [buildRecords, Except.ok.injEq] at h
    subst h
    exact h₀
  | cons row rest ih =>
    cases hpr : parseRow row s e with
    | error msg => simp [buildRecords, hpr] at h
    | ok oval =>
      simp only [buildRecords, hpr] at h
      cases oval with
      | none => exact ih h₀ h
      | some p =>
        obtain ⟨day, rec⟩ := p
        refine ih ?_ h
        intro d r hd
        have hd' : (if d = day then some rec else m₀ d) = some r := hd
        by_cases hdd : d = day
        · rw [if_pos hdd] at hd'
          obtain rfl : rec = r := by simpa using hd'
          subst hdd
          exact parseRow_ok_some hpr
        · rw [if_neg hdd] at hd'
          exact h₀ d r hd'

theorem dictOk_empty (s e : Int) : dictOk s e (fun _ => none) := by
  intro d r hd
  simp at hd

theorem densifyCandles_map_date (m : Int → Option CandleRecord) (s : Int) (n : Nat)
    (hm : ∀ d r, m d = some r → r.date = d) :
    (densifyCandles m s n).map (·.date) = calSeq s n := by
  induction n generalizing s with
  | zero => simp [densifyCandles, calSeq]
  | succ n ih =>
    rw [calSeq_succ]
    simp only [densifyCandles, List.map_cons]
    congr 1
    · cases hms : m s with
      | none => simp [hms, nullCandle]
      | some r =>
        simp only [hms, Option.getD_some]
        exact hm s r hms
    · exact ih (s + 1)

theorem densifyCandles_length (m : Int → Option CandleRecord) (s : Int) (n : Nat) :
    (densifyCandles m s n).length = n := by
  induction n generalizing s with
  | zero => rfl
  | succ n ih => simp [densifyCandles, ih]

/-- C1: For every date range `[start, end]` with `start ≤ end` and every
sparse series returned by a provider (the CBR rate dict, or the MOEX rows
when `_parse_payload` succeeds), the densify step produces exactly
`(end - start).days + 1` records whose dates are exactly the calendar
sequence `start, start+1, ..., end`, strictly ascending, no gaps, no
duplicates. -/
theorem densify_produces_exact_calendar (api_records : Int → Option PyFloat)
    (rows : List MoexRow) (s e : Int) (h : s ≤ e) :
    ((parse_xml_densify api_records s e).map (·.date) = calSeq s ((e - s).toNat + 1) ∧
     (parse_xml_densify api_records s e).length = (e - s).toNat + 1 ∧
     ((parse_xml_densify api_records s e).map (·.date)).Pairwise (· < ·)) ∧
    ∀ recs, parse_payload rows s e = .ok recs →
      recs.map (·.date) = calSeq s ((e - s).toNat + 1) ∧
      recs.length = (e - s).toNat + 1 ∧
      (recs.map (·.date)).Pairwise (· < ·) := by
  have hn : (e - s + 1).toNat = (e - s).toNat + 1 := by omega
  constructor
  · refine ⟨?_, ?_, ?_⟩
    · unfold parse_xml_densify
      rw [hn, densifyRatesFrom_map_date]
    · unfold parse_xml_densify
      rw [hn, densifyRatesFrom_length]
    · unfold parse_xml_densify
      rw [densifyRatesFrom_map_date]
      exact calSeq_pairwise _ _
  · intro recs hrecs
    unfold parse_payload at hrecs
    cases hb : buildRecords s e rows (fun _ => none) with
    | error msg => simp [hb] at hrecs
    | ok m =>
      simp only [hb, Except.ok.injEq] at hrecs
      subst hrecs
      have hdict := buildRecords_dictOk (dictOk_empty s e) hb
      have hdates : ∀ d r, m d = some r → r.date = d := fun d r hd => (hdict d r hd).1
      refine ⟨?_, ?_, ?_⟩
      · rw [hn, densifyCandles_map_date m s _ hdates]
      · rw [hn, densifyCandles_length]
      · rw [densifyCandles_map_date m s _ hdates]
        exact calSeq_pairwise _ _

/-- Witness for C1 at a concrete 3-day range. -/
theorem densify_produces_exact_calendar_witness :
    (parse_xml_densify (fun _ => none) 0 2).map (·.date) = calSeq 0 ((2 - 0 : Int).toNat + 1) :=
  (densify_produces_exact_calendar (fun _ => none) [] 0 2 (by decide)).1.1

theorem densifyCandles_mem (m : Int → Option CandleRecord) (s d : Int) (n : Nat)
    (rec : CandleRecord) (hm : m d = some rec) (h1 : s ≤ d) (h2 : d < s + n) :
    rec ∈ densifyCandles m s n := by
  induction n generalizing s with
  | zero => omega
  | succ n ih =>
    simp only [densifyCandles]
    rcases eq_or_lt_of_le h1 with rfl | hlt
    · simp only [hm, Option.getD_some]
      exact List.mem_cons_self _ _
    · exact List.mem_cons_of_mem _ (ih (s + 1) (by omega) (by omega))

theorem densifyCandles_date_bound (m : Int → Option CandleRecord) (s : Int) (n : Nat)
    (hm : ∀ d r, m d = some r → r.date = d) :
    ∀ r ∈ densifyCandles m s n, s ≤ r.date ∧ r.date < s + n := by
  induction n generalizing s with
  | zero => simp [densifyCandles]
  | succ n ih =>
    intro r hr
    simp only [densifyCandles, List.mem_cons] at hr
    rcases hr with rfl | hr
    · cases hms : m s with
      | none =>
        simp only [hms, Option.getD_none, nullCandle]
        omega
      | some rc =>
        have hdate := hm s rc hms
        simp only [hms, Option.getD_some]
        omega
    · have h := ih (s + 1) r hr
      omega

/-- C2: for each date of the range present in the sparse series the dense
record at that date carries the same value unchanged; for an absent date the
record carries null (both expressed by the membership of the record valued
`api_records d`); every record of the output is dated within the range (so a
sparse entry dated outside the range never appears); and for the MOEX side,
a record stored in `records_by_date` at an in-range date appears unchanged
in the densified output. -/
theorem densify_roundtrip_and_range (api_records : Int → Option PyFloat)
    (s e d : Int) (h1 : s ≤ d) (h2 : d ≤ e) :
    (({ date := d, exchange_rate_value := api_records d, currency_pair := "RUB/USD" } :
        ExchangeRateRecord) ∈ parse_xml_densify api_records s e) ∧
    (∀ r ∈ parse_xml_densify api_records s e, s ≤ r.date ∧ r.date ≤ e) ∧
    (∀ rows recs, parse_payload rows s e = .ok recs →
       ∀ r ∈ recs, s ≤ r.date ∧ r.date ≤ e) ∧
    (∀ rows m recs, buildRecords s e rows (fun _ => none) = .ok m →
       parse_payload rows s e = .ok recs → ∀ rec, m d = some rec → rec ∈ recs) := by
  refine ⟨?_, ?_, ?_, ?_⟩
  · unfold parse_xml_densify
    exact densifyRatesFrom_mem_value api_records s d _ h1 (by omega)
  · intro r hr
    unfold parse_xml_densify at hr
    have h := densifyRatesFrom_date_bound api_records s _ r hr
    omega
  · intro rows recs hok r hr
    unfold parse_payload at hok
    cases hb : buildRecords s e rows (fun _ => none) with
    | error msg => simp [hb] at hok
    | ok m =>
      simp only [hb, Except.ok.injEq] at hok
      subst hok
      have hdict := buildRecords_dictOk (dictOk_empty s e) hb
      have h := densifyCandles_date_bound m s _
        (fun d' r' hd' => (hdict d' r' hd').1) r hr
      omega
  · intro rows m recs hb hok rec hmd
    unfold parse_payload at hok
    simp only [hb, Except.ok.injEq] at hok
    subst hok
    exact densifyCandles_mem m s d _ rec hmd h1 (by omega)

/-- The sparse series of the C2 witness: one entry at date 1. -/
def cbrSparse : Int → Option PyFloat :=
  fun d => if d = 1 then some (.finite 78) else none

/-- Witness for C2 over the 3-day range `[0, 2]` at date 1. -/
theorem densify_roundtrip_and_range_witness :
    (({ date := 1, exchange_rate_value := cbrSparse 1, currency_pair := "RUB/USD" } :
        ExchangeRateRecord) ∈ parse_xml_densify cbrSparse 0 2) ∧
    (∀ r ∈ parse_xml_densify cbrSparse 0 2, 0 ≤ r.date ∧ r.date ≤ 2) ∧
    (∀ rows recs, parse_payload rows 0 2 = .ok recs →
       ∀ r ∈ recs, 0 ≤ r.date ∧ r.date ≤ 2) ∧
    (∀ rows m recs, buildRecords 0 2 rows (fun _ => none) = .ok m →
       parse_payload rows 0 2 = .ok recs → ∀ rec, m 1 = some rec → rec ∈ recs) :=
  densify_roundtrip_and_range cbrSparse 0 2 1 (by decide) (by decide)

/-! ## Characterization of the rate-validator loop -/

theorem recordFirstReason_none_iff (s e : Int) (seen : List Int)
    (r : ExchangeRateRecord) :
    recordFirstReason s e seen r = none ↔
      (validate_date r.date s e = true ∧ r.date ∉ seen ∧
       validate_rate r.exchange_rate_value = true ∧ r.currency_pair = "RUB/USD") := by
  unfold recordFirstReason
  split_ifs with h1 h2 h3 h4 <;> simp_all

theorem recordsLoop_none_iff (s e : Int) :
    ∀ (records : List ExchangeRateRecord) (seen : List Int),
      recordsLoop s e records seen = none ↔
        ((∀ r ∈ records, validate_date r.date s e = true ∧
            validate_rate r.exchange_rate_value = true ∧ r.currency_pair = "RUB/USD") ∧
         (records.map (·.date)).Nodup ∧
         ∀ r ∈ records, r.date ∉ seen)
  | [], seen => by simp [recordsLoop]
  | r :: rest, seen => by
    have hcons : recordsLoop s e (r :: rest) seen = none ↔
        (recordFirstReason s e seen r = none ∧
         recordsLoop s e rest (r.date :: seen) = none) := by
      cases hfr : recordFirstReason s e seen r <;> simp [recordsLoop, hfr]
    rw [hcons, recordsLoop_none_iff s e rest (r.date :: seen), recordFirstReason_none_iff]
    constructor
    · rintro ⟨⟨hv, hns, hvr, hcp⟩, hall, hnd, hseen⟩
      refine ⟨?_, ?_, ?_⟩
      · intro r' hr'
        rcases List.mem_cons.mp hr' with rfl | hr'
        · exact ⟨hv, hvr, hcp⟩
        · exact hall r' hr'
      · simp only [List.map_cons, List.nodup_cons]
        refine ⟨?_, hnd⟩
        simp only [List.mem_map]
        rintro ⟨r', hr', hdate⟩
        exact hseen r' hr' (by rw [hdate]; exact List.mem_cons_self _ _)
      · intro r' hr'
        rcases List.mem_cons.mp hr' with rfl | hr'
        · exact hns
        · exact fun hmem => hseen r' hr' (List.mem_cons_of_mem _ hmem)
    · rintro ⟨hall, hnd, hseen⟩
      have hr0 := hall r (List.mem_cons_self r rest)
      simp only [List.map_cons, List.nodup_cons] at hnd
      refine ⟨⟨hr0.1, hseen r (List.mem_cons_self r rest), hr0.2.1, hr0.2.2⟩,
        ?_, hnd.2, ?_⟩
      · exact fun r' hr' => hall r' (List.mem_cons_of_mem _ hr')
      · intro r' hr' hmem
        rcases List.mem_cons.mp hmem with heq | hmem'
        · exact hnd.1 (List.mem_map.mpr ⟨r', hr', heq⟩)
        · exact hseen r' (List.mem_cons_of_mem _ hr') hmem'

/-- C3: over the 7-day window, `validate_records` returns `ok` with no
reason exactly when all six rules hold: exactly 7 records, all dates within
the period, no duplicate dates, every value null-or-positive
(`validate_rate`), every tag `"RUB/USD"`, and the date set equal to the
expected calendar set. -/
theorem validate_records_ok_iff (records : List ExchangeRateRecord) (s e : Int)
    (h : e = s + 6) :
    validate_records records s e = (true, none) ↔
      (records.length = 7 ∧
       (∀ r ∈ records, s ≤ r.date ∧ r.date ≤ e) ∧
       (records.map (·.date)).Nodup ∧
       (∀ r ∈ records, validate_rate r.exchange_rate_value = true) ∧
       (∀ r ∈ records, r.currency_pair = "RUB/USD") ∧
       datesSetEq (records.map (·.date)) (calSeq s 7) = true) := by
  by_cases hlen : records.length = 7
  · unfold validate_records
    rw [if_neg (fun hc => hc hlen)]
    cases hloop : recordsLoop s e records [] with
    | some reason =>
      constructor
      · intro hcontra
        exact absurd hcontra (by simp)
      · rintro ⟨_, hrange, hnd, hrate, hpair, _⟩
        have hnone : recordsLoop s e records [] = none := by
          rw [recordsLoop_none_iff]
          refine ⟨?_, hnd, by simp⟩
          intro r hr
          refine ⟨?_, hrate r hr, hpair r hr⟩
          have hb := hrange r hr
          simp only [validate_date, Bool.and_eq_true, decide_eq_true_eq]
          omega
        exact absurd (hnone.symm.trans hloop) (by simp)
    | none =>
      by_cases hset : datesSetEq (records.map (·.date)) (calSeq s 7) = true
      · rw [if_pos hset]
        constructor
        · intro _
          have hl := (recordsLoop_none_iff s e records []).mp hloop
          refine ⟨hlen, ?_, hl.2.1, ?_, ?_, hset⟩
          · intro r hr
            have hv := (hl.1 r hr).1
            simp only [validate_date, Bool.and_eq_true, decide_eq_true_eq] at hv
            exact hv
          · exact fun r hr => (hl.1 r hr).2.1
          · exact fun r hr => (hl.1 r hr).2.2
        · intro _
          rfl
      · rw [if_neg hset]
        constructor
        · intro hcontra
          exact absurd hcontra (by simp)
        · rintro ⟨_, _, _, _, _, hset'⟩
          exact absurd hset' hset
  · unfold validate_records
    rw [if_pos hlen]
    constructor
    · intro hcontra
      exact absurd hcontra (by simp)
    · rintro ⟨hlen7, _⟩
      exact absurd hlen7 hlen

/-- A fully valid 7-day rate series used as the C3 witness. -/
def goodWeek : List ExchangeRateRecord :=
  [⟨0, none, "RUB/USD"⟩, ⟨1, some (.finite 78), "RUB/USD"⟩, ⟨2, none, "RUB/USD"⟩,
   ⟨3, some (.finite 80), "RUB/USD"⟩, ⟨4, none, "RUB/USD"⟩,
   ⟨5, some (.finite 79), "RUB/USD"⟩, ⟨6, none, "RUB/USD"⟩]

/-- Witness for C3: the valid 7-day series over `[0, 6]` is accepted. -/
theorem validate_records_ok_iff_witness :
    validate_records goodWeek 0 6 = (true, none) :=
  (validate_records_ok_iff goodWeek 0 6 (by decide)).mpr (by decide)

/-! ## Value checks (C4, C5) -/

/-- C4 (amended): a null rate is always accepted; a non-null rate is
accepted exactly when it compares strictly greater than zero under float
comparison — so zero, negatives, negative infinity and NaN are rejected,
while positive infinity is accepted (the source performs no finiteness
check). -/
theorem validate_rate_value_charact :
    validate_rate none = true ∧
    (∀ q : ℚ, validate_rate (some (.finite q)) = true ↔ 0 < q) ∧
    validate_rate (some .nan) = false ∧
    validate_rate (some .inf) = true ∧
    validate_rate (some .negInf) = false := by
  refine ⟨rfl, fun q => ?_, rfl, rfl, rfl⟩
  simp [validate_rate, PyFloat.gtZero]

/-- Witness for C4's characterization at the rate 78. -/
theorem validate_rate_value_charact_witness :
    validate_rate (some (.finite 78)) = true :=
  (validate_rate_value_charact.2.1 78).mpr (by norm_num)

/-- Counterexample to C4 as stated: positive infinity is not finite, yet
`validate_rate` accepts it. -/
theorem validate_rate_accepts_positive_infinity :
    validate_rate (some .inf) = true ∧ PyFloat.isFinite .inf = false := by
  decide

theorem candleFieldReason_none_iff (d : Int) :
    ∀ fs : List (String × Option PyFloat),
      candleFieldReason d fs = none ↔
        ∀ p ∈ fs, ∀ x, p.2 = some x → is_non_negative_number x = true
  | [] => by simp [candleFieldReason]
  | (field_name, v) :: rest => by
    cases v with
    | none =>
      simp only [candleFieldReason]
      rw [candleFieldReason_none_iff d rest]
      constructor
      · intro hall p hp x hx
        rcases List.mem_cons.mp hp with rfl | hp
        · exact absurd hx (by simp)
        · exact hall p hp x hx
      · intro hall p hp
        exact hall p (List.mem_cons_of_mem _ hp)
    | some w =>
      simp only [candleFieldReason]
      by_cases hw : ¬ is_non_negative_number w
      · rw [if_pos hw]
        constructor
        · intro hcontra
          exact absurd hcontra (by simp)
        · intro hall
          exact absurd (hall (field_name, some w) (List.mem_cons_self _ _) w rfl) hw
      · rw [if_neg hw]
        rw [candleFieldReason_none_iff d rest]
        constructor
        · intro hall p hp x hx
          rcases List.mem_cons.mp hp with rfl | hp
          · obtain rfl : w = x := by simpa using hx
            exact not_not.mp hw
          · exact hall p hp x hx
        · intro hall p hp
          exact hall p (List.mem_cons_of_mem _ hp)

/-- C5 (amended): the per-field loop of `validate_candles` accepts a record
exactly when every present OHLCV value passes `_is_non_negative_number`,
null being always accepted; `_is_non_negative_number` accepts a finite value
exactly when it is `≥ 0`, rejects NaN and negative infinity, and accepts
positive infinity (the source rejects only NaN among the non-finite
values). -/
theorem candle_value_charact :
    (∀ r : CandleRecord,
       candleFieldReason r.date (candleFields r) = none ↔
         ∀ p ∈ candleFields r, ∀ x, p.2 = some x → is_non_negative_number x = true) ∧
    (∀ q : ℚ, is_non_negative_number (.finite q) = true ↔ 0 ≤ q) ∧
    is_non_negative_number .nan = false ∧
    is_non_negative_number .inf = true ∧
    is_non_negative_number .negInf = false := by
  refine ⟨fun r => candleFieldReason_none_iff r.date (candleFields r),
    fun q => ?_, rfl, rfl, rfl⟩
  simp [is_non_negative_number, PyFloat.isnan, PyFloat.geZero]

/-- Witness for C5's characterization at the boundary value 0. -/
theorem candle_value_charact_witness :
    is_non_negative_number (.finite 0) = true :=
  (candle_value_charact.2.1 0).mpr (by norm_num)

/-- Counterexample to C5 as stated: positive infinity is non-finite, yet
`_is_non_negative_number` accepts it. -/
theorem non_negative_check_accepts_positive_infinity :
    is_non_negative_number .inf = true ∧ PyFloat.isFinite .inf = false := by
  decide

/-! ## Evaluation order of the rate validator (C6, C7) -/

theorem recordsLoop_append (s e : Int) (xs ys : List ExchangeRateRecord)
    (seen : List Int) :
    recordsLoop s e (xs ++ ys) seen =
      match recordsLoop s e xs seen with
      | some reason => some reason
      | none => recordsLoop s e ys ((xs.map (·.date)).reverse ++ seen) := by
  induction xs generalizing seen with
  | nil => simp [recordsLoop]
  | cons x xs ih =>
    simp only [List.cons_append, recordsLoop]
    cases hfr : recordFirstReason s e seen x with
    | some reason => rfl
    | none =>
      show recordsLoop s e (xs ++ ys) (x.date :: seen) =
        match recordsLoop s e xs (x.date :: seen) with
        | some reason => some reason
        | none => recordsLoop s e ys (((x :: xs).map (·.date)).reverse ++ seen)
      rw [ih (x.date :: seen)]
      have hseen : ((x :: xs).map (·.date)).reverse ++ seen
          = (xs.map (·.date)).reverse ++ (x.date :: seen) := by
        simp
      rw [hseen]

theorem recordFirstReason_not_count (s e : Int) (seen : List Int)
    (r : ExchangeRateRecord) (exp got : Int) :
    recordFirstReason s e seen r ≠ some (.expectedCount exp got) := by
  unfold recordFirstReason
  split_ifs <;> simp

theorem recordsLoop_not_count (s e : Int) :
    ∀ (records : List ExchangeRateRecord) (seen : List Int) (exp got : Int),
      recordsLoop s e records seen ≠ some (.expectedCount exp got)
  | [], seen, exp, got => by simp [recordsLoop]
  | r :: rest, seen, exp, got => by
    simp only [recordsLoop]
    cases hfr : recordFirstReason s e seen r with
    | some reason =>
      intro hcontra
      have hnc := recordFirstReason_not_count s e seen r exp got
      rw [hfr] at hnc
      exact hnc hcontra
    | none => exact recordsLoop_not_count s e rest (r.date :: seen) exp got

/-- The count check is evaluated first, over the whole input (shared helper
for the claims about rule order and the count rule). -/
theorem validate_records_count_fail (records : List ExchangeRateRecord)
    (s e : Int) (h : records.length ≠ 7) :
    validate_records records s e =
      (false, some (.expectedCount 7 (records.length : Int))) := by
  unfold validate_records
  rw [if_pos h]

/-- C6 (amended): the reported reason is the first violated check in the
code's evaluation order — the record count first, over the whole input;
then the records in list order, each record checked in the order
date-within-period, duplicate, value, tag, the first failing record's first
failing check determining the reason (not the global rule order of the
claim). -/
theorem validate_records_first_failing_check :
    (∀ (records : List ExchangeRateRecord) (s e : Int), records.length ≠ 7 →
       validate_records records s e =
         (false, some (.expectedCount 7 (records.length : Int)))) ∧
    (∀ (s e : Int) (pre : List ExchangeRateRecord) (r : ExchangeRateRecord)
       (rest : List ExchangeRateRecord) (reason : Reason),
       (pre ++ r :: rest).length = 7 →
       recordsLoop s e pre [] = none →
       recordFirstReason s e ((pre.map (·.date)).reverse) r = some reason →
       validate_records (pre ++ r :: rest) s e = (false, some reason)) := by
  refine ⟨fun records s e h => validate_records_count_fail records s e h, ?_⟩
  intro s e pre r rest reason hlen hpre hr
  unfold validate_records
  rw [if_neg (fun hc => hc hlen)]
  have hloop : recordsLoop s e (pre ++ r :: rest) [] = some reason := by
    rw [recordsLoop_append, hpre]
    show recordsLoop s e (r :: rest) ((pre.map (·.date)).reverse ++ []) = some reason
    rw [List.append_nil]
    simp only [recordsLoop, hr]
  rw [hloop]

/-- The first record of the C6 witness list: passes all its checks. -/
def preOne : List ExchangeRateRecord := [⟨0, none, "RUB/USD"⟩]

/-- The second record of the C6 witness list: zero rate, its first failing
check is the value check. -/
def zeroRateRecord : ExchangeRateRecord := ⟨1, some (.finite 0), "RUB/USD"⟩

/-- The trailing records of the C6 witness list. -/
def tailFive : List ExchangeRateRecord :=
  [⟨2, none, "RUB/USD"⟩, ⟨3, none, "RUB/USD"⟩, ⟨4, none, "RUB/USD"⟩,
   ⟨5, none, "RUB/USD"⟩, ⟨6, none, "RUB/USD"⟩]

/-- Witness for C6: with the first record passing, the second record's zero
rate is the reported reason. -/
theorem validate_records_first_failing_check_witness :
    validate_records (preOne ++ zeroRateRecord :: tailFive) 0 6 =
      (false, some (.invalidRateValue 1 (some (.finite 0)))) :=
  validate_records_first_failing_check.2 0 6 preOne zeroRateRecord tailFive
    (.invalidRateValue 1 (some (.finite 0))) (by decide) (by decide) (by decide)

/-- Seven records over `[0, 6]`: the first carries a wrong currency-pair tag
(rule 5), the second an out-of-period date (rule 2). -/
def mixedBadWeek : List ExchangeRateRecord :=
  [⟨0, none, "USD/RUB"⟩, ⟨10, none, "RUB/USD"⟩, ⟨2, none, "RUB/USD"⟩,
   ⟨3, none, "RUB/USD"⟩, ⟨4, none, "RUB/USD"⟩, ⟨5, none, "RUB/USD"⟩,
   ⟨6, none, "RUB/USD"⟩]

/-- Counterexample to C6 as stated: the date rule (rule 2) is violated while
the count rule (rule 1) holds, yet the reported reason is the tag rule's
(rule 5), because the first record's tag check runs before the second
record's date check. -/
theorem validate_records_reason_not_global_order :
    mixedBadWeek.length = 7 ∧
    (∃ r ∈ mixedBadWeek, ¬((0 : Int) ≤ r.date ∧ r.date ≤ 6)) ∧
    validate_records mixedBadWeek 0 6 =
      (false, some (.invalidCurrencyPair "USD/RUB")) := by
  decide

/-- C7 (amended): the rate validator fails with the count reason exactly
when the record count differs from the hard-coded 7 (not from the day span
of the supplied period), reporting the actual count unmodified; with 7
records the count reason is never reported. -/
theorem validate_records_count_rule :
    (∀ (records : List ExchangeRateRecord) (s e : Int), records.length ≠ 7 →
       validate_records records s e =
         (false, some (.expectedCount 7 (records.length : Int)))) ∧
    (∀ (records : List ExchangeRateRecord) (s e exp got : Int),
       records.length = 7 →
       (validate_records records s e).2 ≠ some (.expectedCount exp got)) := by
  refine ⟨fun records s e h => validate_records_count_fail records s e h, ?_⟩
  intro records s e exp got hlen
  unfold validate_records
  rw [if_neg (fun hc => hc hlen)]
  cases hloop : recordsLoop s e records [] with
  | some reason =>
    intro hcontra
    have hnc := recordsLoop_not_count s e records [] exp got
    rw [hloop] at hnc
    exact hnc hcontra
  | none =>
    by_cases hset : datesSetEq (records.map (·.date)) (calSeq s 7) = true
    · rw [if_pos hset]
      simp
    · rw [if_neg hset]
      simp

/-- A 1-record list for the C7 witness. -/
def shortList : List ExchangeRateRecord := [⟨0, none, "RUB/USD"⟩]

/-- Witness for C7: 1 record is rejected with the count reason; a 7-record
list never draws the count reason. -/
theorem validate_records_count_rule_witness :
    validate_records shortList 0 6 = (false, some (.expectedCount 7 1)) ∧
    (validate_records goodWeek 0 6).2 ≠ some (.expectedCount 7 7) :=
  ⟨validate_records_count_rule.1 shortList 0 6 (by decide),
   validate_records_count_rule.2 goodWeek 0 6 7 7 (by decide)⟩

/-- Counterexample to C7 as stated: 7 records over the 3-day period
`[0, 2]` — the count differs from the day span `(end - start).days + 1 = 3`,
yet the validator reports a date reason, not a count reason (the count
check compares against the hard-coded 7, which passes). -/
theorem validate_records_count_not_span_derived :
    goodWeek.length = 7 ∧
    ((goodWeek.length : Int) ≠ (2 : Int) - 0 + 1) ∧
    validate_records goodWeek 0 2 = (false, some (.dateOutsidePeriod 3 0 2)) := by
  decide

/-- C8: for `start ≤ end`, the candle validator's expected count is
`(end - start).days + 1`, derived from the requested span: a list passing
validation has exactly that many records, and any other length fails with
the count reason carrying that expected value. -/
theorem validate_candles_count_from_span (records : List CandleRecord)
    (s e : Int) (h : s ≤ e) :
    ((validate_candles records s e).1 = true → (records.length : Int) = e - s + 1) ∧
    ((records.length : Int) ≠ e - s + 1 →
       validate_candles records s e =
         (false, some (.expectedCount (e - s + 1) (records.length : Int)))) := by
  have hnot : ¬ s > e := by omega
  constructor
  · intro hok
    by_contra hne
    simp only [validate_candles] at hok
    rw [if_neg hnot, if_pos hne] at hok
    simp at hok
  · intro hne
    simp only [validate_candles]
    rw [if_neg hnot, if_pos hne]

/-- Witness for C8: over the 3-day span `[0, 2]` the empty list fails with
expected count 3. -/
theorem validate_candles_count_from_span_witness :
    validate_candles [] 0 2 = (false, some (.expectedCount 3 0)) :=
  (validate_candles_count_from_span [] 0 2 (by decide)).2 (by decide)

/-- C9: when validation fails, neither orchestrator run invokes the sink
writer, and the run exits with the validation-failure exit code. -/
theorem no_sink_write_on_validation_failure (s e : Int)
    (records : List ExchangeRateRecord) (candles : List CandleRecord)
    (write : List ExchangeRateRecord → Except Int String)
    (cwrite : List CandleRecord → Except Int String)
    (hv : (validate_records records s e).1 = false)
    (hc : (validate_candles candles s e).1 = false) :
    run_cbr s e (.ok records) write =
      { exit := EXIT_VALIDATION_ERROR, sinkInvoked := false } ∧
    run_moex_lqdt s e (.ok candles) cwrite =
      { exit := EXIT_VALIDATION_ERROR, sinkInvoked := false } := by
  constructor
  · simp only [run_cbr]
    rw [if_pos (by simp [hv])]
  · simp only [run_moex_lqdt]
    rw [if_pos (by simp [hc])]

/-- Witness for C9: empty record lists fail validation, the runs exit with
code 5 and never call the writers. -/
theorem no_sink_write_on_validation_failure_witness :
    run_cbr 0 6 (.ok []) (fun _ => .ok "rates.parquet") =
      { exit := EXIT_VALIDATION_ERROR, sinkInvoked := false } ∧
    run_moex_lqdt 0 6 (.ok []) (fun _ => .ok "candles.xlsx") =
      { exit := EXIT_VALIDATION_ERROR, sinkInvoked := false } :=
  no_sink_write_on_validation_failure 0 6 [] []
    (fun _ => .ok "rates.parquet") (fun _ => .ok "candles.xlsx")
    (by decide) (by decide)

/-! ## MOEX adapter value guarantees (C10) -/

theorem densifyCandles_values (m : Int → Option CandleRecord) (s : Int) (n : Nat)
    (hm : ∀ d r, m d = some r →
       ∀ ov ∈ [r.«open», r.high, r.low, r.close, r.volume],
         ∀ x, ov = some x → x.ltZero = false) :
    ∀ r ∈ densifyCandles m s n,
      ∀ ov ∈ [r.«open», r.high, r.low, r.close, r.volume],
        ∀ x, ov = some x → x.ltZero = false := by
  induction n generalizing s with
  | zero => simp [densifyCandles]
  | succ n ih =>
    intro r hr
    simp only [densifyCandles, List.mem_cons] at hr
    rcases hr with rfl | hr
    · cases hms : m s with
      | none =>
        simp only [hms, Option.getD_none, nullCandle]
        intro ov hov x hx
        simp only [List.mem_cons, List.not_mem_nil, or_false] at hov
        rcases hov with rfl | rfl | rfl | rfl | rfl <;> simp at hx
      | some rc =>
        simp only [hms, Option.getD_some]
        exact hm s rc hms
    · exact ih (s + 1) r hr

theorem parseRow_neg_error (row : MoexRow) (s e day : Int)
    (hb : row.begin_ = some day) (h1 : s ≤ day) (h2 : day ≤ e)
    (hneg : ∃ v ∈ [row.«open», row.high, row.low, row.close, row.volume],
       ∃ x, v = .jnum x ∧ x.ltZero = true) :
    ∃ msg, parseRow row s e = .error msg := by
  simp only [parseRow, hb]
  rw [if_neg (by omega : ¬(day < s ∨ day > e))]
  by_cases hbd : row.boardid.getD "TQTF" ≠ "TQTF"
  · rw [if_pos hbd]
    exact ⟨_, rfl⟩
  · rw [if_neg hbd]
    obtain ⟨v, hv, x, hvx, hxneg⟩ := hneg
    simp only [List.mem_cons, List.not_mem_nil, or_false] at hv
    have hvf : parse_float v = .error "negative value in API data" := by
      rw [hvx]
      simp only [parse_float]
      rw [if_pos hxneg]
    rcases hv with rfl | rfl | rfl | rfl | rfl
    · rw [hvf]
      exact ⟨_, rfl⟩
    · cases ho : parse_float row.«open» with
      | error msg => exact ⟨msg, rfl⟩
      | ok o =>
        rw [hvf]
        exact ⟨_, rfl⟩
    · cases ho : parse_float row.«open» with
      | error msg => exact ⟨msg, rfl⟩
      | ok o =>
        cases hh : parse_float row.high with
        | error msg => exact ⟨msg, rfl⟩
        | ok hi =>
          rw [hvf]
          exact ⟨_, rfl⟩
    · cases ho : parse_float row.«open» with
      | error msg => exact ⟨msg, rfl⟩
      | ok o =>
        cases hh : parse_float row.high with
        | error msg => exact ⟨msg, rfl⟩
        | ok hi =>
          cases hl : parse_float row.low with
          | error msg => exact ⟨msg, rfl⟩
          | ok lo =>
            rw [hvf]
            exact ⟨_, rfl⟩
    · cases ho : parse_float row.«open» with
      | error msg => exact ⟨msg, rfl⟩
      | ok o =>
        cases hh : parse_float row.high with
        | error msg => exact ⟨msg, rfl⟩
        | ok hi =>
          cases hl : parse_float row.low with
          | error msg => exact ⟨msg, rfl⟩
          | ok lo =>
            cases hc : parse_float row.close with
            | error msg => exact ⟨msg, rfl⟩
            | ok cl =>
              rw [hvf]
              exact ⟨_, rfl⟩

theorem buildRecords_error_of_row (s e : Int) :
    ∀ (rows : List MoexRow) (m₀ : Int → Option CandleRecord) (row : MoexRow),
      row ∈ rows → (∃ msg, parseRow row s e = .error msg) →
      ∃ msg, buildRecords s e rows m₀ = .error msg
  | [], _, row, hrow, _ => absurd hrow (List.not_mem_nil row)
  | r :: rest, m₀, row, hrow, herr => by
    cases hpr : parseRow r s e with
    | error msg => exact ⟨msg, by simp [buildRecords, hpr]⟩
    | ok oval =>
      have hrow' : row ∈ rest := by
        rcases List.mem_cons.mp hrow with rfl | hmem
        · obtain ⟨msg, hmsg⟩ := herr
          rw [hpr] at hmsg
          exact absurd hmsg (by simp)
        · exact hmem
      cases oval with
      | none =>
        obtain ⟨msg, hmsg⟩ := buildRecords_error_of_row s e rest m₀ row hrow' herr
        exact ⟨msg, by simp [buildRecords, hpr, hmsg]⟩
      | some p =>
        obtain ⟨day, rec⟩ := p
        obtain ⟨msg, hmsg⟩ := buildRecords_error_of_row s e rest
          (fun d => if d = day then some rec else m₀ d) row hrow' herr
        exact ⟨msg, by simp [buildRecords, hpr, hmsg]⟩

/-- C10 (amended): `parse_float` accepts only values that do not compare
less than zero; hence every candle record the densifier emits carries only
values that are null or do not compare less than zero (NaN, comparing false
to everything, passes through and is later rejected by the validator, not
by the adapter); and an in-range row holding a negative numeric OHLCV value
makes `_parse_payload` raise a provider error. -/
theorem moex_adapter_nonnegative :
    (∀ (v : JsonVal) (x : PyFloat), parse_float v = .ok (some x) → x.ltZero = false) ∧
    (∀ (rows : List MoexRow) (s e : Int) (recs : List CandleRecord),
       parse_payload rows s e = .ok recs →
       ∀ r ∈ recs, ∀ ov ∈ [r.«open», r.high, r.low, r.close, r.volume],
         ∀ x, ov = some x → x.ltZero = false) ∧
    (∀ (rows : List MoexRow) (s e : Int) (row : MoexRow) (day : Int),
       row ∈ rows → row.begin_ = some day → s ≤ day → day ≤ e →
       (∃ v ∈ [row.«open», row.high, row.low, row.close, row.volume],
          ∃ x, v = .jnum x ∧ x.ltZero = true) →
       ∃ msg, parse_payload rows s e = .error msg) := by
  refine ⟨fun v x h => parse_float_ok_not_neg h, ?_, ?_⟩
  · intro rows s e recs hok r hr
    unfold parse_payload at hok
    cases hb : buildRecords s e rows (fun _ => none) with
    | error msg => simp [hb] at hok
    | ok m =>
      simp only [hb, Except.ok.injEq] at hok
      subst hok
      have hdict := buildRecords_dictOk (dictOk_empty s e) hb
      exact densifyCandles_values m s _ (fun d rc hd => (hdict d rc hd).2.2.2) r hr
  · intro rows s e row day hrow hb h1 h2 hneg
    have herr := parseRow_neg_error row s e day hb h1 h2 hneg
    obtain ⟨msg, hmsg⟩ := buildRecords_error_of_row s e rows (fun _ => none) row hrow herr
    refine ⟨msg, ?_⟩
    unfold parse_payload
    rw [hmsg]

/-- A payload row with an in-range date whose volume cell is NaN. -/
def nanRow : MoexRow :=
  { begin_ := some 0, boardid := some "TQTF", «open» := .jnum (.finite 1),
    high := .jnum (.finite 1), low := .jnum (.finite 1),
    close := .jnum (.finite 1), volume := .jnum .nan }

/-- The candle record the adapter emits for `nanRow`. -/
def nanVolumeCandle : CandleRecord :=
  { date := 0, «open» := some (.finite 1), high := some (.finite 1),
    low := some (.finite 1), close := some (.finite 1), volume := some .nan,
    instrument := "LQDT", board := "TQTF" }

/-- Counterexample to C10 as stated: a NaN volume is a numeric upstream
value that is neither negative nor unparseable, so the adapter emits it
without a provider error, the emitted value is non-null yet not
non-negative (`nan >= 0` is false), and it surfaces as a validation
failure. -/
theorem moex_parse_passes_nan :
    parse_payload [nanRow] 0 0 = .ok [nanVolumeCandle] ∧
    nanVolumeCandle.volume = some .nan ∧
    PyFloat.geZero .nan = false ∧
    (validate_candles [nanVolumeCandle] 0 0).1 = false := by
  refine ⟨rfl, rfl, rfl, by decide⟩

/-- A payload row with an in-range date and a negative open price. -/
def negOpenRow : MoexRow :=
  { begin_ := some 0, boardid := some "TQTF", «open» := .jnum (.finite (-1)),
    high := .jnull, low := .jnull, close := .jnull, volume := .jnull }

/-- Witness for C10: the negative open price surfaces as a provider error. -/
theorem moex_adapter_nonnegative_witness :
    ∃ msg, parse_payload [negOpenRow] 0 0 = .error msg :=
  moex_adapter_nonnegative.2.2 [negOpenRow] 0 0 negOpenRow 0 (by decide)
    (by decide) (by decide) (by decide)
    ⟨.jnum (.finite (-1)), by decide, .finite (-1), rfl, by decide⟩
